import Mathlib

/-!
Verification of the solar-design-system token pipeline.

Shallow embedding of the reference-resolution engine of
`scripts/process_tokens.py` and of the name-collision policy of
`scripts/token-extractor.py` (`organize_option_colors`), together with
proofs settling the frozen claims about the natural-language spec.

Conventions of the embedding:
* Python dicts become association lists `List (String × α)`; `dictFind`
  is dict lookup (first matching key), `dictInsert` is `d[k] = v`
  (update in place if the key exists, append otherwise — this preserves
  Python's insertion-order semantics).
* Python string operations (`split('.')`, `'-'.join`, `in`, `replace`,
  `re.findall(r'\x7b([^\x7d]+)\x7d', …)`, `re.sub`) are re-implemented as
  structural recursions over `List Char` so that every definition
  evaluates inside the kernel.
* `resolve_placeholder` may raise `IndexError` (unguarded
  `placeholder_parts[1]` / `placeholder_parts[2]`); the embedding returns
  `ResolveResult.indexError` for exactly those control paths, and the
  pass engine propagates it as `Except.error ()` (the Python `main`
  wraps everything in one `try`, so an exception aborts the whole run).
* `logger.warning("Circular reference …")` is the only diagnostic the
  resolver can emit; the embedding records it in the `warned` field and
  the engine sums these counts alongside its result.
-/

/-- Python `'.'.split` helper: accumulates the current segment (reversed). -/
def splitDotAux : List Char → List Char → List String
  | [], acc => [String.mk acc.reverse]
  | c :: rest, acc =>
    if c = '.' then String.mk acc.reverse :: splitDotAux rest []
    else splitDotAux rest (c :: acc)

/-- `placeholder.split('.')` from `resolve_placeholder` (line 40). -/
def splitDot (s : String) : List String :=
  splitDotAux s.data []

/-- `'-'.join(parts)` used throughout `resolve_placeholder`. -/
def joinHyphen : List String → String
  | [] => ""
  | [x] => x
  | x :: xs => x ++ "-" ++ joinHyphen xs

/-- Python `c in s` membership test on strings. -/
def containsChar (s : String) (c : Char) : Bool :=
  s.data.contains c

/-- Splits a char list at the first `'\x7d'`: returns the chars before it and
the chars after it, or `none` when there is no closing brace. -/
def breakAtRBrace : List Char → Option (List Char × List Char)
  | [] => none
  | c :: rest =>
    if c = '\x7d' then some ([], rest)
    else (breakAtRBrace rest).map (fun p => (c :: p.1, p.2))

/-- `re.findall(r'\x7b([^\x7d]+)\x7d', value)`: every non-overlapping match of an
opening brace followed by one or more non-`\x7d` chars and a closing brace,
left to right.  Fuel-based so the kernel can evaluate it; `scanPH` supplies
fuel `l.length`, which never runs out (each step consumes ≥ 1 char). -/
def scanPHAux : Nat → List Char → List String
  | 0, _ => []
  | fuel + 1, l =>
    match l with
    | [] => []
    | c :: rest =>
      if c = '\x7b' then
        match breakAtRBrace rest with
        | some (content, after) =>
          if content = [] then scanPHAux fuel rest
          else String.mk content :: scanPHAux fuel after
        | none => scanPHAux fuel rest
      else scanPHAux fuel rest

/-- The Placeholder Scanner: all `\x7b…\x7d` reference paths of a raw value. -/
def scanPH (s : String) : List String :=
  scanPHAux s.data.length s.data

/-- `re.sub(r'\x7b[^\x7d]+\x7d', fb, value)` from the CSS-emission step
(lines 301-302 / 310-311): masks every leftover placeholder with a fixed
fallback string.  Fuel-based like `scanPHAux`. -/
def maskPHAux (fb : List Char) : Nat → List Char → List Char
  | 0, l => l
  | fuel + 1, l =>
    match l with
    | [] => []
    | c :: rest =>
      if c = '\x7b' then
        match breakAtRBrace rest with
        | some (content, after) =>
          if content = [] then c :: maskPHAux fb fuel rest
          else fb ++ maskPHAux fb fuel after
        | none => c :: maskPHAux fb fuel rest
      else c :: maskPHAux fb fuel rest

/-- Emission-stage masking of a value that still contains placeholder syntax
(`if '\x7b' in value and '\x7d' in value: value = re.sub(…)`). -/
def maskValue (fb : String) (v : String) : String :=
  if containsChar v '\x7b' && containsChar v '\x7d' then
    String.mk (maskPHAux fb.data v.data.length v.data)
  else v

/-- Python `str.replace(pat, rep)`: replace all non-overlapping occurrences,
left to right.  Fuel-based; each step consumes at least one char, so fuel
`s.length` suffices. -/
def replaceAllAux (pat rep : List Char) : Nat → List Char → List Char
  | 0, l => l
  | fuel + 1, l =>
    match l with
    | [] => []
    | c :: rest =>
      if pat.isPrefixOf l then rep ++ replaceAllAux pat rep fuel (l.drop pat.length)
      else c :: replaceAllAux pat rep fuel rest

/-- `value.replace(pat, rep)` (line 270); `pat` is always `"\x7b"+ph+"\x7d"`,
hence non-empty. -/
def strReplace (s pat rep : String) : String :=
  if pat.data = [] then s
  else String.mk (replaceAllAux pat.data rep.data s.data.length s.data)

/-- Python dict lookup `d[k]` / `k in d` (first matching key). -/
def dictFind {α : Type} (m : List (String × α)) (k : String) : Option α :=
  match m with
  | [] => none
  | (k', v) :: rest => if k' = k then some v else dictFind rest k

/-- In-place update of one entry, used by `dictInsert` when the key exists. -/
def updateEntry {α : Type} (k : String) (v : α) (kv : String × α) : String × α :=
  if kv.1 = k then (k, v) else kv

/-- Python dict assignment `d[k] = v`: updates the existing entry in place,
otherwise appends (insertion order preserved). -/
def dictInsert {α : Type} (m : List (String × α)) (k : String) (v : α) :
    List (String × α) :=
  if (dictFind m k).isSome then m.map (updateEntry k v)
  else m ++ [(k, v)]

/-- The map of already-resolved semantic tokens: Python initialises every
token to `None`, so values are `Option String`. -/
abbrev TokenMap := List (String × Option String)

/-- Outcome of one `resolve_placeholder` call: a value (`some`), an
unresolvable reference (`none` — Python returns `None`), or an uncaught
`IndexError` from an unguarded list index. -/
inductive ResolveResult where
  | ok : Option String → ResolveResult
  | indexError : ResolveResult
deriving DecidableEq, Repr

/-- A `resolve_placeholder` call outcome plus whether the call emitted the
`"Circular reference detected"` warning. -/
structure ResolveOut where
  result : ResolveResult
  warned : Bool
deriving DecidableEq, Repr

/-- The `size_mapping` dict of the `base.radius` branch (lines 64-76). -/
def radiusSizeMapping : List (String × String) :=
  [("size-1", "6percent"), ("size-2", "12percent"), ("size-3", "37percent"),
   ("size-4", "50percent"), ("size-5", "75percent"), ("size-6", "100percent"),
   ("size-7", "125percent"), ("size-8", "150percent"), ("size-9", "175percent"),
   ("pill", "500percent"), ("none", "0percent")]

/-- The `size_mapping` dict of the `base.{gap,padding,margin,spacing}` branch
(lines 89-105). -/
def gapSizeMapping : List (String × String) :=
  [("size-1", "6percent"), ("size-2", "12percent"), ("size-3", "37percent"),
   ("size-4", "50percent"), ("size-5", "75percent"), ("size-6", "100percent"),
   ("size-7", "125percent"), ("size-8", "150percent"), ("size-9", "175percent"),
   ("size-10", "200percent"), ("size-11", "225percent"), ("size-12", "250percent"),
   ("size-15", "350percent"), ("size-16", "400percent"), ("none", "0percent")]

/-- Body of `resolve_placeholder` on the already-split path, after the
circular-reference check (lines 40-125).  (The Python function also appends
`placeholder` to `resolution_stack`; since it never calls itself recursively
and the caller never reuses the stack, that mutation has no observable
effect and is not modelled.) -/
def resolveParts (parts : List String)
    (baseTokens sassTokens : List (String × String))
    (resolvedTokens : TokenMap) : ResolveResult :=
  if parts.headI = "color" then
    .ok (some (match dictFind sassTokens (joinHyphen parts) with
      | some v => v
      | none =>
        if parts.length > 1 then
          match dictFind sassTokens (joinHyphen parts.tail) with
          | some v => v
          | none => "#CCCCCC"
        else "#CCCCCC"))
  else if parts.headI = "base" then
    match parts[1]? with
    | none => .indexError
    | some p1 =>
      if p1 = "radius" then
        match parts[2]? with
        | none => .indexError
        | some radiusName =>
          match dictFind radiusSizeMapping radiusName with
          | some pct =>
            .ok (some ((dictFind baseTokens ("16px-scale-" ++ pct)).getD "4px"))
          | none => .ok (some "4px")
      else if ["gap", "padding", "margin", "spacing"].contains p1 then
        match parts[2]? with
        | none => .indexError
        | some sizeName =>
          match dictFind gapSizeMapping sizeName with
          | some pct =>
            .ok (some ((dictFind baseTokens ("16px-scale-" ++ pct)).getD "8px"))
          | none => .ok (some "8px")
      else if parts.length > 2 then
        .ok (dictFind baseTokens (joinHyphen parts.tail))
      else .ok none
  else if parts.headI = "comp" then
    match dictFind resolvedTokens (joinHyphen parts) with
    | some v => .ok v
    | none => .ok none
  else .ok none

/-- `resolve_placeholder` body after the stack check, on the raw placeholder. -/
def resolveCore (placeholder : String)
    (baseTokens sassTokens : List (String × String))
    (resolvedTokens : TokenMap) : ResolveResult :=
  resolveParts (splitDot placeholder) baseTokens sassTokens resolvedTokens

/-- `resolve_placeholder` (lines 17-125).  `stack` is `resolution_stack`
after the `None` default is replaced by `[]`; `main` always calls with the
default, i.e. `stack = []`. -/
def resolvePlaceholder (placeholder : String)
    (baseTokens sassTokens : List (String × String))
    (resolvedTokens : TokenMap) (stack : List String) : ResolveOut :=
  if stack.contains placeholder then ⟨.ok none, true⟩
  else ⟨resolveCore placeholder baseTokens sassTokens resolvedTokens, false⟩

/-- The inner placeholder loop of one token (lines 261-270): resolve each
scanned placeholder against the current maps and substitute it into the
accumulated value when the result is truthy (`if placeholder_value:` — both
`None` and `""` are skipped).  Returns the final value (or the propagated
`IndexError`) plus the number of circular-reference warnings emitted. -/
def substPlaceholders (baseTokens sassTokens : List (String × String))
    (resolvedTokens : TokenMap) :
    List String → String → (Except Unit String) × Nat
  | [], acc => (.ok acc, 0)
  | ph :: rest, acc =>
    let r := resolvePlaceholder ph baseTokens sassTokens resolvedTokens []
    let w : Nat := if r.warned then 1 else 0
    match r.result with
    | .indexError => (.error (), w)
    | .ok none =>
      let p := substPlaceholders baseTokens sassTokens resolvedTokens rest acc
      (p.1, w + p.2)
    | .ok (some pv) =>
      if pv = "" then
        let p := substPlaceholders baseTokens sassTokens resolvedTokens rest acc
        (p.1, w + p.2)
      else
        let p := substPlaceholders baseTokens sassTokens resolvedTokens rest
          (strReplace acc ("\x7b" ++ ph ++ "\x7d") pv)
        (p.1, w + p.2)

/-- One full sweep of the pass engine over the semantic tokens
(lines 256-274): every token is re-processed from its RAW value; tokens
whose raw value contains both braces go through placeholder substitution,
all others are committed verbatim. -/
def onePassAux (baseTokens sassTokens : List (String × String)) :
    List (String × String) → TokenMap → (Except Unit TokenMap) × Nat
  | [], resolved => (.ok resolved, 0)
  | (tn, tv) :: rest, resolved =>
    if containsChar tv '\x7b' && containsChar tv '\x7d' then
      match substPlaceholders baseTokens sassTokens resolved (scanPH tv) tv with
      | (.error _, w) => (.error (), w)
      | (.ok rv, w) =>
        let p := onePassAux baseTokens sassTokens rest
          (dictInsert resolved tn (some rv))
        (p.1, w + p.2)
    else
      let p := onePassAux baseTokens sassTokens rest
        (dictInsert resolved tn (some tv))
      (p.1, 0 + p.2)

/-- `for token_name in semantic_tokens: resolved[token_name] = None`
(lines 249-250). -/
def initResolved (semantic : List (String × String)) : TokenMap :=
  semantic.foldl (fun m kv => dictInsert m kv.1 none) []

/-- `for pass_num in range(1, max_passes + 1): …` (lines 253-274): runs the
sweep the given number of times, propagating an uncaught exception. -/
def runPasses (baseTokens sassTokens : List (String × String))
    (semantic : List (String × String)) :
    Nat → TokenMap → (Except Unit TokenMap) × Nat
  | 0, resolved => (.ok resolved, 0)
  | n + 1, resolved =>
    match onePassAux baseTokens sassTokens semantic resolved with
    | (.error _, w) => (.error (), w)
    | (.ok m', w) =>
      let p := runPasses baseTokens sassTokens semantic n m'
      (p.1, w + p.2)

/-- The Fixed-Point Pass Engine for one (brand, theme) scope:
`max_passes` sweeps starting from the all-`None` table.  Returns the final
resolved table (or abort) and the total circular-reference warning count. -/
def resolveAll (baseTokens sassTokens : List (String × String))
    (semantic : List (String × String)) (maxPasses : Nat) :
    (Except Unit TokenMap) × Nat :=
  runPasses baseTokens sassTokens semantic maxPasses (initResolved semantic)

/-- The per-pass trace of the engine: the state committed after each sweep
actually performed (cut short only by an uncaught exception).  Used to
observe how many sweeps the engine really performs. -/
def runPassesTrace (baseTokens sassTokens : List (String × String))
    (semantic : List (String × String)) :
    Nat → TokenMap → List TokenMap
  | 0, _ => []
  | n + 1, resolved =>
    match onePassAux baseTokens sassTokens semantic resolved with
    | (.error _, _) => []
    | (.ok m', _) => m' :: runPassesTrace baseTokens sassTokens semantic n m'

/-- A committed token value counts as resolved when it is a string with no
remaining placeholder; the initial `None` entries count as unresolved. -/
def resolvedValB : Option String → Bool
  | none => false
  | some s => (scanPH s).isEmpty

/-- Number of resolved tokens in a state (spec 4.3's per-pass bookkeeping,
computed after the fact — the code itself tracks nothing). -/
def countResolved (m : TokenMap) : Nat :=
  (m.filter fun kv => resolvedValB kv.2).length

/-! Name Normalizer collision policy (spec 4.5).

The collision-suffix loop cited by the spec is written in
`scripts/token-extractor.py`, inside `organize_option_colors`
(lines 1759-1845), once per output category:

    counter = 1
    original_name = name
    while name in category:
        name = f"\x7boriginal_name\x7d-\x7bcounter\x7d"
        counter += 1
    category[name] = value

That file, however, is not valid Python: it fails to parse (a mis-indented
`else:` at line 568, and a mis-indented `break` at line 1809 inside
`organize_option_colors` itself, within the cited range).  The interpreter
rejects the whole file with a SyntaxError before any function can run, so
the collision policy as shipped can never execute — there is no runnable
collision loop anywhere in the repository (the parseable top-level
`token-extractor.py` variant contains no suffix loop at all).  The spec
(4.5 Name Normalizer; testable property "Collision-free naming") plainly
describes the intended behaviour of this very loop, so the definitions
below are modelled from the spec; they coincide, token for token, with
the loop as written in the unparseable source text.  The candidate
sequence is `base`, `base-1`, `base-2`, ….
-/

/-- Modelled from the spec: the `k`-th candidate identifier tried by the
collision policy (`base`, then `base-1`, `base-2`, …); no runnable source
for it exists because `scripts/token-extractor.py` does not parse. -/
def candName (base : String) : Nat → String
  | 0 => base
  | k + 1 => base ++ "-" ++ Nat.repr (k + 1)

/-- Modelled from the spec: the collision `while` loop — append `-1`,
`-2`, … until the name is unique.  The written Python loop is unbounded;
here it carries fuel, and `collisionFreeName` supplies `|category| + 1`,
which is proved sufficient below (`dictFind_collisionFreeName`). -/
def collisionLoop (base : String) (cat : List (String × String)) :
    Nat → Nat → String
  | 0, k => candName base k
  | fuel + 1, k =>
    if (dictFind cat (candName base k)).isSome then
      collisionLoop base cat fuel (k + 1)
    else candName base k

/-- Modelled from the spec: the unique identifier chosen for `base`
against category `cat`. -/
def collisionFreeName (base : String) (cat : List (String × String)) : String :=
  collisionLoop base cat (cat.length + 1) 0

/-- Modelled from the spec: `category[name] = value` after the collision
loop. -/
def addColorToken (cat : List (String × String)) (base v : String) :
    List (String × String) :=
  dictInsert cat (collisionFreeName base cat) v

/-- Modelled from the spec: processing a batch of tokens
(base-name, value) into one output category. -/
def addColorTokens (cat : List (String × String))
    (batch : List (String × String)) : List (String × String) :=
  batch.foldl (fun c p => addColorToken c p.1 p.2) cat

/-! Helper lemmas about the dict model. -/

theorem resolvePlaceholder_nil_stack (ph : String)
    (b s : List (String × String)) (rm : TokenMap) :
    resolvePlaceholder ph b s rm [] = ⟨resolveCore ph b s rm, false⟩ := rfl

theorem updateEntry_pair {α : Type} (k : String) (v : α) (k1 : String) (v1 : α) :
    updateEntry k v (k1, v1) = if k1 = k then (k, v) else (k1, v1) := rfl

theorem dictFind_map_update {α : Type} (m : List (String × α)) (k : String)
    (v : α) (h : (dictFind m k).isSome) :
    dictFind (m.map (updateEntry k v)) k = some v := by
  induction m with
  | nil => simp [dictFind] at h
  | cons kv rest ih =>
    obtain ⟨k1, v1⟩ := kv
    rw [List.map_cons, updateEntry_pair]
    by_cases hk : k1 = k
    · rw [if_pos hk, dictFind, if_pos rfl]
    · rw [if_neg hk, dictFind, if_neg hk]
      rw [dictFind, if_neg hk] at h
      exact ih h

theorem dictFind_append_left {α : Type} {m : List (String × α)} {k : String}
    {v : α} (ext : List (String × α)) (h : dictFind m k = some v) :
    dictFind (m ++ ext) k = some v := by
  induction m with
  | nil => simp [dictFind] at h
  | cons kv rest ih =>
    obtain ⟨k1, v1⟩ := kv
    by_cases hk : k1 = k
    · rw [dictFind, if_pos hk] at h
      rw [List.cons_append, dictFind, if_pos hk]
      exact h
    · rw [dictFind, if_neg hk] at h
      rw [List.cons_append, dictFind, if_neg hk]
      exact ih h

theorem dictFind_append_right {α : Type} {m : List (String × α)} {k : String}
    (ext : List (String × α)) (h : dictFind m k = none) :
    dictFind (m ++ ext) k = dictFind ext k := by
  induction m with
  | nil => simp
  | cons kv rest ih =>
    obtain ⟨k1, v1⟩ := kv
    by_cases hk : k1 = k
    · rw [dictFind, if_pos hk] at h
      simp at h
    · rw [dictFind, if_neg hk] at h
      rw [List.cons_append, dictFind, if_neg hk]
      exact ih h

theorem dictFind_dictInsert_self {α : Type} (m : List (String × α))
    (k : String) (v : α) : dictFind (dictInsert m k v) k = some v := by
  rw [dictInsert]
  by_cases h : (dictFind m k).isSome
  · rw [if_pos h]
    exact dictFind_map_update m k v h
  · rw [if_neg h]
    have hn : dictFind m k = none := by
      cases he : dictFind m k
      · rfl
      · rw [he] at h; simp at h
    rw [dictFind_append_right _ hn, dictFind, if_pos rfl]

theorem dictFind_dictInsert_ne {α : Type} (m : List (String × α))
    (k k' : String) (v : α) (h : k ≠ k') :
    dictFind (dictInsert m k v) k' = dictFind m k' := by
  rw [dictInsert]
  by_cases hs : (dictFind m k).isSome
  · rw [if_pos hs]
    clear hs
    induction m with
    | nil => rfl
    | cons kv rest ih =>
      obtain ⟨k1, v1⟩ := kv
      rw [List.map_cons, updateEntry_pair]
      by_cases hk : k1 = k
      · rw [if_pos hk, dictFind, dictFind, if_neg h, if_neg (hk ▸ h)]
        exact ih
      · rw [if_neg hk, dictFind, dictFind]
        by_cases hk' : k1 = k'
        · rw [if_pos hk', if_pos hk']
        · rw [if_neg hk', if_neg hk']
          exact ih
  · rw [if_neg hs]
    clear hs
    induction m with
    | nil =>
      simp only [List.nil_append]
      simp [dictFind, h]
    | cons kv rest ih =>
      obtain ⟨k1, v1⟩ := kv
      rw [List.cons_append, dictFind, dictFind]
      by_cases hk' : k1 = k'
      · rw [if_pos hk', if_pos hk']
      · rw [if_neg hk', if_neg hk']
        exact ih

theorem dictFind_isSome_iff_mem {α : Type} (m : List (String × α)) (k : String) :
    (dictFind m k).isSome ↔ k ∈ m.map Prod.fst := by
  induction m with
  | nil => simp [dictFind]
  | cons kv rest ih =>
    obtain ⟨k1, v1⟩ := kv
    by_cases hk : k1 = k
    · subst hk
      simp [dictFind]
    · rw [dictFind, if_neg hk]
      simp only [List.map_cons, List.mem_cons]
      rw [ih]
      constructor
      · exact fun h => Or.inr h
      · rintro (h | h)
        · exact absurd h.symm hk
        · exact h

/-! Warning accounting: `resolve_placeholder` with the default (fresh)
stack can never take the circular-reference branch, so the engine never
logs a circular-reference warning. -/

theorem substPlaceholders_warnings (b s : List (String × String)) (rm : TokenMap) :
    ∀ (phs : List String) (acc : String),
      (substPlaceholders b s rm phs acc).2 = 0 := by
  intro phs
  induction phs with
  | nil => intro acc; rfl
  | cons ph rest ih =>
    intro acc
    rw [substPlaceholders]
    simp only [resolvePlaceholder_nil_stack]
    cases hres : resolveCore ph b s rm with
    | indexError => simp
    | ok ov =>
      cases ov with
      | none => simp [ih]
      | some pv =>
        by_cases hpv : pv = ""
        · simp [hpv, ih]
        · simp [hpv, ih]

theorem onePassAux_warnings (b s : List (String × String)) :
    ∀ (toks : List (String × String)) (resolved : TokenMap),
      (onePassAux b s toks resolved).2 = 0 := by
  intro toks
  induction toks with
  | nil => intro resolved; rfl
  | cons tk rest ih =>
    intro resolved
    obtain ⟨tn, tv⟩ := tk
    rw [onePassAux]
    by_cases hb : (containsChar tv '\x7b' && containsChar tv '\x7d') = true
    · rw [if_pos hb]
      have hw := substPlaceholders_warnings b s resolved (scanPH tv) tv
      cases hsub : substPlaceholders b s resolved (scanPH tv) tv with
      | mk res w =>
        rw [hsub] at hw
        cases res with
        | error e => simpa using hw
        | ok rv =>
          have hw0 : w = 0 := by simpa using hw
          simp [hw0, ih]
    · rw [if_neg hb]
      simp [ih]

theorem runPasses_warnings (b s sem : List (String × String)) :
    ∀ (n : Nat) (resolved : TokenMap), (runPasses b s sem n resolved).2 = 0 := by
  intro n
  induction n with
  | zero => intro resolved; rfl
  | succ n ih =>
    intro resolved
    rw [runPasses]
    have hw := onePassAux_warnings b s sem resolved
    cases hop : onePassAux b s sem resolved with
    | mk res w =>
      rw [hop] at hw
      cases res with
      | error e => simpa using hw
      | ok m' =>
        have hw0 : w = 0 := by simpa using hw
        simp [hw0, ih]

/-- C8.  The circular-reference branch of the resolver is unreachable in
every run of the pass engine: `main` always calls `resolve_placeholder`
with `resolution_stack` defaulting to `None` (a fresh empty stack) and the
function never calls itself recursively, so `placeholder in resolution_stack`
is false on every reachable call (first conjunct: a call with the empty
stack never warns) and no run of the engine ever emits the
circular-reference warning (second conjunct: the warning total of
`resolveAll` is zero for every input). -/
theorem spec_c8_circular_branch_unreachable :
    (∀ (ph : String) (b s : List (String × String)) (rm : TokenMap),
      (resolvePlaceholder ph b s rm []).warned = false) ∧
    (∀ (b s sem : List (String × String)) (maxPasses : Nat),
      (resolveAll b s sem maxPasses).2 = 0) := by
  constructor
  · intro ph b s rm
    rfl
  · intro b s sem maxPasses
    exact runPasses_warnings b s sem maxPasses (initResolved sem)

/-- C3 counterexample.  The claim says the radius default, the gap default
and the padding default are pairwise distinct; in the code the gap and
padding branches share the single default `"8px"` (lines 109/111), shown
here at a missed scale lookup for both properties. -/
theorem spec_c3_counterexample :
    (resolvePlaceholder "base.gap.size-99" [] [] [] []).result
        = .ok (some "8px") ∧
    (resolvePlaceholder "base.padding.size-99" [] [] [] []).result
        = .ok (some "8px") ∧
    (resolvePlaceholder "base.radius.size-99" [] [] [] []).result
        = .ok (some "4px") := by
  refine ⟨rfl, rfl, rfl⟩

/-- C3 amended.  The fixed defaults substituted when a base-namespace scale
lookup misses are: `"4px"` for radius and `"8px"` for gap, padding, margin
and spacing alike — so the radius default differs from the gap/padding
default, but the gap and padding defaults are the same value.  This holds
for every token table (the miss default does not consult the tables). -/
theorem spec_c3_amended (b s : List (String × String)) (rm : TokenMap) :
    (resolvePlaceholder "base.radius.size-99" b s rm []).result
        = .ok (some "4px") ∧
    (resolvePlaceholder "base.gap.size-99" b s rm []).result
        = .ok (some "8px") ∧
    (resolvePlaceholder "base.padding.size-99" b s rm []).result
        = .ok (some "8px") ∧
    (resolvePlaceholder "base.margin.size-99" b s rm []).result
        = .ok (some "8px") ∧
    (resolvePlaceholder "base.spacing.size-99" b s rm []).result
        = .ok (some "8px") ∧
    ("4px" : String) ≠ "8px" := by
  refine ⟨rfl, rfl, rfl, rfl, rfl, by decide⟩

/-- C9 counterexample.  The claim says every `base` reference with fewer
than three dot-separated segments raises an `IndexError`; but a two-segment
path whose second segment is none of `radius`/`gap`/`padding`/`margin`/
`spacing` (e.g. `base.custom`) falls through all branches and returns
`None` (an unresolved result), raising nothing. -/
theorem spec_c9_counterexample :
    (resolvePlaceholder "base.custom" [] [] [] []).result = .ok none ∧
    (ResolveResult.ok none) ≠ .indexError := by
  refine ⟨rfl, by decide⟩

theorem splitDotAux_no_dot :
    ∀ (l acc : List Char), '.' ∉ l →
      splitDotAux l acc = [String.mk (acc.reverse ++ l)] := by
  intro l
  induction l with
  | nil =>
    intro acc _
    rw [splitDotAux, List.append_nil]
  | cons c rest ih =>
    intro acc h
    rw [List.mem_cons] at h
    push_neg at h
    obtain ⟨h1, h2⟩ := h
    rw [splitDotAux, if_neg (fun hc => h1 hc.symm)]
    rw [ih (c :: acc) h2]
    rw [List.reverse_cons, List.append_assoc, List.singleton_append]

/-- A two-segment `base` path splits into exactly `["base", x]` when the
second segment contains no dot. -/
theorem splitDot_base_two (x : String) (hd : '.' ∉ x.data) :
    splitDot ("base." ++ x) = ["base", x] := by
  rw [splitDot]
  rw [show ("base." ++ x).data
      = 'b' :: 'a' :: 's' :: 'e' :: '.' :: x.data from by
    rw [String.data_append]; rfl]
  rw [show splitDotAux ('b' :: 'a' :: 's' :: 'e' :: '.' :: x.data) []
      = "base" :: splitDotAux x.data [] from rfl]
  rw [splitDotAux_no_dot x.data [] hd]
  rfl

/-- C9 amended.  The bare path `base` raises `IndexError` from the
unguarded `placeholder_parts[1]`, and the two-segment paths `base.radius`,
`base.gap`, `base.padding`, `base.margin`, `base.spacing` raise `IndexError`
from the unguarded `placeholder_parts[2]`; but every other two-segment
`base` path — `base.x` for any dot-free second segment `x` outside
`\x7bradius, gap, padding, margin, spacing\x7d` — falls through every branch and
returns an unresolved `None` without raising.  This holds for every token
table. -/
theorem spec_c9_amended (b s : List (String × String)) (rm : TokenMap)
    (x : String) (hd : '.' ∉ x.data)
    (hx : x ∉ (["radius", "gap", "padding", "margin", "spacing"] :
      List String)) :
    (resolvePlaceholder "base" b s rm []).result = .indexError ∧
    (resolvePlaceholder "base.radius" b s rm []).result = .indexError ∧
    (resolvePlaceholder "base.gap" b s rm []).result = .indexError ∧
    (resolvePlaceholder "base.padding" b s rm []).result = .indexError ∧
    (resolvePlaceholder "base.margin" b s rm []).result = .indexError ∧
    (resolvePlaceholder "base.spacing" b s rm []).result = .indexError ∧
    (resolvePlaceholder ("base." ++ x) b s rm []).result = .ok none := by
  refine ⟨rfl, rfl, rfl, rfl, rfl, rfl, ?_⟩
  have hr : ¬(x = "radius") := fun h => hx (by rw [h]; simp)
  have hg : ¬(x = "gap") := fun h => hx (by rw [h]; simp)
  have hp : ¬(x = "padding") := fun h => hx (by rw [h]; simp)
  have hm : ¬(x = "margin") := fun h => hx (by rw [h]; simp)
  have hsp2 : ¬(x = "spacing") := fun h => hx (by rw [h]; simp)
  have hcon : ((["gap", "padding", "margin", "spacing"] :
      List String).contains x) = false := by
    rw [show ((["gap", "padding", "margin", "spacing"] :
        List String).contains x)
      = List.elem x ["gap", "padding", "margin", "spacing"] from rfl]
    rw [List.elem_eq_mem]
    simp [hg, hp, hm, hsp2]
  rw [show (resolvePlaceholder ("base." ++ x) b s rm []).result
      = resolveCore ("base." ++ x) b s rm from rfl]
  rw [resolveCore, splitDot_base_two x hd, resolveParts]
  rw [show List.headI ["base", x] = "base" from rfl]
  rw [show (["base", x] : List String).length = 2 from rfl]
  rw [show ((["base", x] : List String)[1]?) = some x from rfl]
  rw [if_neg (show ¬(("base" : String) = "color") from by decide)]
  rw [if_pos (show ("base" : String) = "base" from rfl)]
  dsimp only
  rw [if_neg hr]
  rw [if_neg (show ¬(((["gap", "padding", "margin", "spacing"] :
      List String).contains x) = true) from by rw [hcon]; simp)]
  rw [if_neg (show ¬((2 : Nat) > 2) from by decide)]

/-- C9 amended witness: the concrete unrecognized second segment `custom`. -/
theorem spec_c9_amended_witness :
    ('.' ∉ ("custom" : String).data) ∧
    (("custom" : String) ∉ (["radius", "gap", "padding", "margin",
      "spacing"] : List String)) ∧
    (resolvePlaceholder "base.custom" [] [] [] []).result = .ok none :=
  ⟨by decide, by decide,
    (spec_c9_amended [] [] [] "custom" (by decide) (by decide)).2.2.2.2.2.2⟩

/-- C4.  For every reference path whose first segment is `color`, the
resolver first looks up the flat key `'-'.join(parts)` in the Sass table;
if absent it retries with the first segment dropped; if that is also
absent it returns the neutral fallback `"#CCCCCC"` — and it never errors
and never leaves the reference unresolved (the result is always
`.ok (some …)`).  The hypothesis `dictFind s "" = none` records that the
Sass table never contains an empty key (its keys are produced by the
regex `[a-zA-Z0-9-]+`), which makes the no-retry path of a one-segment
`color` path agree with a vacuous retry on the empty joined key. -/
theorem spec_c4_color_resolution (ph : String)
    (b s : List (String × String)) (rm : TokenMap)
    (hc : (splitDot ph).headI = "color")
    (he : dictFind s "" = none) :
    resolvePlaceholder ph b s rm [] =
      ⟨.ok (some (match dictFind s (joinHyphen (splitDot ph)) with
        | some v => v
        | none =>
          match dictFind s (joinHyphen (splitDot ph).tail) with
          | some v => v
          | none => "#CCCCCC")), false⟩ := by
  rw [resolvePlaceholder_nil_stack, resolveCore]
  cases hsp : splitDot ph with
  | nil =>
    rw [hsp] at hc
    simp [List.headI] at hc
  | cons a l =>
    rw [hsp] at hc
    simp only [List.headI] at hc
    subst hc
    rw [resolveParts]
    simp only [List.headI, if_true]
    cases hfind : dictFind s (joinHyphen ("color" :: l)) with
    | some v => simp
    | none =>
      cases l with
      | nil =>
        simp only [List.length_cons, List.length_nil, List.tail_cons]
        rw [if_neg (by decide)]
        simp [joinHyphen, he]
      | cons a2 l2 =>
        simp only [List.length_cons, List.tail_cons]
        rw [if_pos (by omega)]

/-- C4 witness: the color branch at a concrete hit. -/
theorem spec_c4_witness :
    (splitDot "color.cerulean.500-main").headI = "color" ∧
    dictFind [("color-cerulean-500-main", "#2D9CDB")] "" = none ∧
    resolvePlaceholder "color.cerulean.500-main" []
        [("color-cerulean-500-main", "#2D9CDB")] [] []
      = ⟨.ok (some "#2D9CDB"), false⟩ :=
  ⟨by decide, by decide,
    spec_c4_color_resolution "color.cerulean.500-main" []
      [("color-cerulean-500-main", "#2D9CDB")] [] (by decide) (by decide)⟩

/-- C5.  For every reference path whose first segment is `comp`, the
resolver looks the hyphen-joined path up directly in the already-resolved
token map and returns exactly the stored value when the key is present
(including a stored `None`), and `None` (unresolved) when the key is
absent — no fallback value is ever substituted for a comp reference. -/
theorem spec_c5_comp_resolution (ph : String) (b s : List (String × String))
    (rm : TokenMap) (hc : (splitDot ph).headI = "comp") :
    resolvePlaceholder ph b s rm [] =
      ⟨.ok ((dictFind rm (joinHyphen (splitDot ph))).join), false⟩ := by
  rw [resolvePlaceholder_nil_stack, resolveCore]
  cases hsp : splitDot ph with
  | nil =>
    rw [hsp] at hc
    simp [List.headI] at hc
  | cons a l =>
    rw [hsp] at hc
    simp only [List.headI] at hc
    subst hc
    rw [resolveParts]
    simp only [List.headI, if_true]
    cases hfind : dictFind rm (joinHyphen ("comp" :: l)) with
    | some v => rfl
    | none => rfl

/-- C5 witness: a concrete comp reference hit returning the stored value. -/
theorem spec_c5_witness :
    (splitDot "comp.button.bg").headI = "comp" ∧
    resolvePlaceholder "comp.button.bg" [] []
        [("comp-button-bg", some "#2D9CDB")] []
      = ⟨.ok (some "#2D9CDB"), false⟩ :=
  ⟨by decide,
    spec_c5_comp_resolution "comp.button.bg" [] []
      [("comp-button-bg", some "#2D9CDB")] (by decide)⟩

/-- C10.  If a placeholder resolves to the empty string, the pass engine's
truthiness check (`if placeholder_value:`) treats it like an unresolved
reference and skips the substitution (first conjunct: processing that
placeholder leaves the accumulated value untouched), so the literal
placeholder text stays in the token's committed value (second conjunct: a
token referencing an empty-valued Sass variable commits its raw
`\x7bcolor.x\x7d` text after all five passes). -/
theorem spec_c10_empty_value_skipped (b s : List (String × String))
    (rm : TokenMap) (ph : String) (rest : List String) (acc : String)
    (h : (resolvePlaceholder ph b s rm []).result = .ok (some "")) :
    substPlaceholders b s rm (ph :: rest) acc
        = substPlaceholders b s rm rest acc ∧
    (resolveAll [] [("color-x", "")] [("t", "\x7bcolor.x\x7d")] 5).1
        = .ok [("t", some "\x7bcolor.x\x7d")] := by
  constructor
  · have h' : resolveCore ph b s rm = .ok (some "") := h
    rw [substPlaceholders]
    simp [resolvePlaceholder_nil_stack, h']
  · rfl

/-- C10 witness: the concrete empty-valued placeholder `color.x`. -/
theorem spec_c10_witness :
    (resolvePlaceholder "color.x" [] [("color-x", "")] [] []).result
        = .ok (some "") ∧
    substPlaceholders [] [("color-x", "")] [] ["color.x"] "\x7bcolor.x\x7d"
        = substPlaceholders [] [("color-x", "")] [] [] "\x7bcolor.x\x7d" :=
  ⟨by rfl,
    (spec_c10_empty_value_skipped [] [("color-x", "")] [] "color.x" []
      "\x7bcolor.x\x7d" (by rfl)).1⟩

/-- C1 counterexample.  On the two-token reference cycle
`a = "\x7bb\x7d"`, `b = "\x7ba\x7d"` the engine does terminate, but neither token
ends with a documented fallback value: both keep their literal placeholder
text as final resolved value (`a ↦ "\x7bb\x7d"`, `b ↦ "\x7ba\x7d"`), and the number of
recorded circular-reference diagnostics is 0, not 2. -/
theorem spec_c1_counterexample :
    resolveAll [] [] [("a", "\x7bb\x7d"), ("b", "\x7ba\x7d")] 5
        = (.ok [("a", some "\x7bb\x7d"), ("b", some "\x7ba\x7d")], 0) ∧
    ("\x7bb\x7d" : String) ≠ "#CCCCCC" ∧ ("\x7bb\x7d" : String) ≠ "4px" ∧
    ("\x7bb\x7d" : String) ≠ "8px" ∧ ("\x7bb\x7d" : String) ≠ "#333333" ∧
    (0 : Nat) ≠ 2 :=
  ⟨rfl, by decide, by decide, by decide, by decide, by decide⟩

/-- C1 amended.  For the two-token cycle `a = "\x7bb\x7d"`, `b = "\x7ba\x7d"`:
`resolveAll` terminates after exactly `maxPasses = 5` sweeps, cycle
detection never fires (zero CircularReference diagnostics), both tokens
keep their literal placeholder text as their final resolved value, and the
neutral fallback (`#CCCCCC` light / `#333333` dark) is substituted only by
the later CSS-emission masking step, not by the resolver. -/
theorem spec_c1_amended :
    resolveAll [] [] [("a", "\x7bb\x7d"), ("b", "\x7ba\x7d")] 5
        = (.ok [("a", some "\x7bb\x7d"), ("b", some "\x7ba\x7d")], 0) ∧
    (runPassesTrace [] [] [("a", "\x7bb\x7d"), ("b", "\x7ba\x7d")] 5
        (initResolved [("a", "\x7bb\x7d"), ("b", "\x7ba\x7d")])).length = 5 ∧
    maskValue "#CCCCCC" "\x7bb\x7d" = "#CCCCCC" ∧
    maskValue "#CCCCCC" "\x7ba\x7d" = "#CCCCCC" ∧
    maskValue "#333333" "\x7bb\x7d" = "#333333" :=
  ⟨rfl, rfl, rfl, rfl, rfl⟩

/-- C2 counterexample.  On the cycle table, pass 1 resolves zero additional
tokens (the resolved count stays 0), yet the engine still performs all five
sweeps — it never stops early before `maxPasses`. -/
theorem spec_c2_counterexample :
    countResolved (initResolved [("a", "\x7bb\x7d"), ("b", "\x7ba\x7d")]) = 0 ∧
    runPassesTrace [] [] [("a", "\x7bb\x7d"), ("b", "\x7ba\x7d")] 5
        (initResolved [("a", "\x7bb\x7d"), ("b", "\x7ba\x7d")])
      = [[("a", some "\x7bb\x7d"), ("b", some "\x7ba\x7d")],
         [("a", some "\x7bb\x7d"), ("b", some "\x7ba\x7d")],
         [("a", some "\x7bb\x7d"), ("b", some "\x7ba\x7d")],
         [("a", some "\x7bb\x7d"), ("b", some "\x7ba\x7d")],
         [("a", some "\x7bb\x7d"), ("b", some "\x7ba\x7d")]] ∧
    countResolved [("a", some "\x7bb\x7d"), ("b", some "\x7ba\x7d")] = 0 ∧
    ¬((5 : Nat) < 5) :=
  ⟨rfl, rfl, rfl, by decide⟩

theorem runPassesTrace_length (b s sem : List (String × String)) :
    ∀ (n : Nat) (m m' : TokenMap),
      (runPasses b s sem n m).1 = .ok m' →
      (runPassesTrace b s sem n m).length = n := by
  intro n
  induction n with
  | zero => intro m m' h; rfl
  | succ n ih =>
    intro m m' h
    rw [runPasses] at h
    rw [runPassesTrace]
    cases hop : onePassAux b s sem m with
    | mk res w =>
      rw [hop] at h
      cases res with
      | error e => simp at h
      | ok m1 =>
        simp only at h
        simp only [List.length_cons]
        rw [ih m1 m' (by simpa using h)]

/-- C2 amended.  The pass engine tracks no per-pass resolved count and
never stops early: whenever a run completes without an exception it has
performed exactly `maxPasses` full sweeps, regardless of whether any pass
made progress (see `spec_c2_counterexample` for a run whose first pass
resolves zero tokens and which still sweeps five times). -/
theorem spec_c2_amended (b s sem : List (String × String)) (n : Nat)
    (m : TokenMap) (h : (resolveAll b s sem n).1 = .ok m) :
    (runPassesTrace b s sem n (initResolved sem)).length = n :=
  runPassesTrace_length b s sem n (initResolved sem) m h

/-- C2 amended witness: the cycle table completes and sweeps five times. -/
theorem spec_c2_amended_witness :
    (resolveAll [] [] [("a", "\x7bb\x7d"), ("b", "\x7ba\x7d")] 5).1
        = .ok [("a", some "\x7bb\x7d"), ("b", some "\x7ba\x7d")] ∧
    (runPassesTrace [] [] [("a", "\x7bb\x7d"), ("b", "\x7ba\x7d")] 5
        (initResolved [("a", "\x7bb\x7d"), ("b", "\x7ba\x7d")])).length = 5 :=
  ⟨by rfl,
    spec_c2_amended [] [] [("a", "\x7bb\x7d"), ("b", "\x7ba\x7d")] 5
      [("a", some "\x7bb\x7d"), ("b", some "\x7ba\x7d")] (by rfl)⟩

/-! Idempotence on already-literal tokens (C6). -/

theorem onePassAux_preserve (b s : List (String × String)) :
    ∀ (toks : List (String × String)) (m m' : TokenMap) (w : Nat) (tn : String),
      tn ∉ toks.map Prod.fst →
      onePassAux b s toks m = (.ok m', w) →
      dictFind m' tn = dictFind m tn := by
  intro toks
  induction toks with
  | nil =>
    intro m m' w tn _ h
    rw [onePassAux] at h
    rw [Prod.mk.injEq] at h
    obtain ⟨h1, _⟩ := h
    rw [Except.ok.injEq] at h1
    rw [← h1]
  | cons tk rest ih =>
    obtain ⟨k, v⟩ := tk
    intro m m' w tn hn h
    rw [List.map_cons, List.mem_cons] at hn
    push_neg at hn
    obtain ⟨hnk, hnr⟩ := hn
    rw [onePassAux] at h
    by_cases hb : (containsChar v '\x7b' && containsChar v '\x7d') = true
    · rw [if_pos hb] at h
      cases hsub : substPlaceholders b s m (scanPH v) v with
      | mk res w1 =>
        rw [hsub] at h
        cases res with
        | error e => simp at h
        | ok rv =>
          simp only at h
          cases hp : onePassAux b s rest (dictInsert m k (some rv)) with
          | mk res2 w2 =>
            rw [hp] at h
            rw [Prod.mk.injEq] at h
            obtain ⟨h1, _⟩ := h
            have hres2 : res2 = Except.ok m' := h1
            rw [hres2] at hp
            rw [ih _ _ _ tn hnr hp]
            exact dictFind_dictInsert_ne m k tn (some rv) (fun hkk => hnk hkk.symm)
    · rw [if_neg hb] at h
      cases hp : onePassAux b s rest (dictInsert m k (some v)) with
      | mk res2 w2 =>
        rw [hp] at h
        rw [Prod.mk.injEq] at h
        obtain ⟨h1, _⟩ := h
        have hres2 : res2 = Except.ok m' := h1
        rw [hres2] at hp
        rw [ih _ _ _ tn hnr hp]
        exact dictFind_dictInsert_ne m k tn (some v) (fun hkk => hnk hkk.symm)

theorem onePassAux_commit (b s : List (String × String)) :
    ∀ (toks : List (String × String)) (m m' : TokenMap) (w : Nat)
      (tn tv : String),
      (toks.map Prod.fst).Nodup → (tn, tv) ∈ toks → scanPH tv = [] →
      onePassAux b s toks m = (.ok m', w) →
      dictFind m' tn = some (some tv) := by
  intro toks
  induction toks with
  | nil =>
    intro m m' w tn tv _ hmem _ _
    simp at hmem
  | cons tk rest ih =>
    obtain ⟨k, v⟩ := tk
    intro m m' w tn tv hnd hmem hlit h
    rw [List.map_cons, List.nodup_cons] at hnd
    obtain ⟨hkn, hnd'⟩ := hnd
    rw [onePassAux] at h
    rcases List.mem_cons.mp hmem with heq | hmem'
    · injection heq with e1 e2
      subst e1
      subst e2
      by_cases hb : (containsChar tv '\x7b' && containsChar tv '\x7d') = true
      · rw [if_pos hb, hlit] at h
        rw [show substPlaceholders b s m [] tv = (.ok tv, 0) from rfl] at h
        simp only at h
        cases hp : onePassAux b s rest (dictInsert m tn (some tv)) with
        | mk res2 w2 =>
          rw [hp] at h
          rw [Prod.mk.injEq] at h
          obtain ⟨h1, _⟩ := h
          have hres2 : res2 = Except.ok m' := h1
          rw [hres2] at hp
          rw [onePassAux_preserve b s rest _ _ _ tn hkn hp]
          exact dictFind_dictInsert_self m tn (some tv)
      · rw [if_neg hb] at h
        cases hp : onePassAux b s rest (dictInsert m tn (some tv)) with
        | mk res2 w2 =>
          rw [hp] at h
          rw [Prod.mk.injEq] at h
          obtain ⟨h1, _⟩ := h
          have hres2 : res2 = Except.ok m' := h1
          rw [hres2] at hp
          rw [onePassAux_preserve b s rest _ _ _ tn hkn hp]
          exact dictFind_dictInsert_self m tn (some tv)
    · by_cases hb : (containsChar v '\x7b' && containsChar v '\x7d') = true
      · rw [if_pos hb] at h
        cases hsub : substPlaceholders b s m (scanPH v) v with
        | mk res w1 =>
          rw [hsub] at h
          cases res with
          | error e => simp at h
          | ok rv =>
            simp only at h
            cases hp : onePassAux b s rest (dictInsert m k (some rv)) with
            | mk res2 w2 =>
              rw [hp] at h
              rw [Prod.mk.injEq] at h
              obtain ⟨h1, _⟩ := h
              have hres2 : res2 = Except.ok m' := h1
              rw [hres2] at hp
              exact ih _ _ _ tn tv hnd' hmem' hlit hp
      · rw [if_neg hb] at h
        cases hp : onePassAux b s rest (dictInsert m k (some v)) with
        | mk res2 w2 =>
          rw [hp] at h
          rw [Prod.mk.injEq] at h
          obtain ⟨h1, _⟩ := h
          have hres2 : res2 = Except.ok m' := h1
          rw [hres2] at hp
          exact ih _ _ _ tn tv hnd' hmem' hlit hp

theorem runPasses_commit (b s sem : List (String × String)) (tn tv : String)
    (hnd : (sem.map Prod.fst).Nodup) (hmem : (tn, tv) ∈ sem)
    (hlit : scanPH tv = []) :
    ∀ (n : Nat) (m0 m : TokenMap),
      (runPasses b s sem (n + 1) m0).1 = .ok m →
      dictFind m tn = some (some tv) := by
  intro n
  induction n with
  | zero =>
    intro m0 m h
    rw [runPasses] at h
    cases hop : onePassAux b s sem m0 with
    | mk res w =>
      rw [hop] at h
      cases res with
      | error e => simp at h
      | ok m1 =>
        simp only at h
        have hm : m1 = m := by simpa [runPasses] using h
        subst hm
        exact onePassAux_commit b s sem m0 m1 w tn tv hnd hmem hlit hop
  | succ n ih =>
    intro m0 m h
    rw [runPasses] at h
    cases hop : onePassAux b s sem m0 with
    | mk res w =>
      rw [hop] at h
      cases res with
      | error e => simp at h
      | ok m1 =>
        simp only at h
        exact ih m1 m (by simpa using h)

/-- C6.  Resolution is idempotent on already-resolved input: any token of
the semantic table whose raw value contains no placeholder is committed
unchanged by the pass engine — after any completed run (≥ 1 pass) its
entry in the output table equals its raw input value.  Resolving a
fully-resolved table therefore returns every literal value unchanged. -/
theorem spec_c6_idempotent (b s : List (String × String))
    (sem : List (String × String)) (tn tv : String) (n : Nat) (m : TokenMap)
    (hnd : (sem.map Prod.fst).Nodup) (hmem : (tn, tv) ∈ sem)
    (hlit : scanPH tv = [])
    (hok : (resolveAll b s sem (n + 1)).1 = .ok m) :
    dictFind m tn = some (some tv) :=
  runPasses_commit b s sem tn tv hnd hmem hlit n (initResolved sem) m hok

/-- C6 witness: a one-token fully-resolved table is returned unchanged. -/
theorem spec_c6_witness :
    ([("t", "#FFF")].map Prod.fst).Nodup ∧ ("t", "#FFF") ∈ [("t", "#FFF")] ∧
    scanPH "#FFF" = [] ∧
    (resolveAll [] [] [("t", "#FFF")] 5).1 = .ok [("t", some "#FFF")] ∧
    dictFind [("t", some "#FFF")] "t" = some (some "#FFF") :=
  ⟨by decide, by decide, by rfl, by rfl,
    spec_c6_idempotent [] [] [("t", "#FFF")] "t" "#FFF" 4 [("t", some "#FFF")]
      (by decide) (by decide) (by rfl) (by rfl)⟩

/-! Collision-free naming (C7).  The shipped `scripts/token-extractor.py`
cannot run (it does not parse), so these theorems are about the collision
policy modelled from the spec — the intended behaviour that the broken
file's text transcribes.  The loop's candidates are `base`, `base-1`,
`base-2`, …; injectivity of the candidate family (via a decimal decode
round-trip for `Nat.repr`) plus a pigeonhole argument show the loop
always lands on a name not yet in the category. -/

def decodeStep (acc : Nat) (c : Char) : Nat := acc * 10 + (c.toNat - 48)

theorem digitChar_round (d : Nat) (h : d < 10) :
    (Nat.digitChar d).toNat - 48 = d := by
  interval_cases d <;> rfl

theorem toDigitsCore_decode :
    ∀ (fuel n : Nat) (ds : List Char), n < fuel →
      (Nat.toDigitsCore 10 fuel n ds).foldl decodeStep 0
        = ds.foldl decodeStep n := by
  intro fuel
  induction fuel with
  | zero => intro n ds h; omega
  | succ fuel ih =>
    intro n ds h
    simp only [Nat.toDigitsCore]
    by_cases h0 : n / 10 = 0
    · rw [if_pos h0, List.foldl_cons]
      have hd : decodeStep 0 (Nat.digitChar (n % 10)) = n := by
        rw [decodeStep, digitChar_round (n % 10) (Nat.mod_lt n (by norm_num))]
        omega
      rw [hd]
    · rw [if_neg h0]
      rw [ih (n / 10) (Nat.digitChar (n % 10) :: ds) (by omega), List.foldl_cons]
      have hd : decodeStep (n / 10) (Nat.digitChar (n % 10)) = n := by
        rw [decodeStep, digitChar_round (n % 10) (Nat.mod_lt n (by omega))]
        omega
      rw [hd]

theorem repr_decode (n : Nat) :
    (Nat.repr n).data.foldl decodeStep 0 = n := by
  rw [Nat.repr, Nat.toDigits]
  rw [show ((Nat.toDigitsCore 10 (n + 1) n []).asString).data
      = Nat.toDigitsCore 10 (n + 1) n [] from rfl]
  rw [toDigitsCore_decode (n + 1) n [] (Nat.lt_succ_self n)]
  rfl

theorem reprNat_injective : Function.Injective Nat.repr := by
  intro m n h
  have hm := repr_decode m
  have hn := repr_decode n
  rw [h, hn] at hm
  exact hm.symm

theorem string_data_inj {s t : String} (h : s.data = t.data) : s = t := by
  cases s
  exact congrArg String.mk h

theorem candName_injective (base : String) :
    Function.Injective (candName base) := by
  intro i j h
  match i, j with
  | 0, 0 => rfl
  | 0, j + 1 =>
    exfalso
    rw [candName, candName] at h
    have hlen := congrArg (fun s => s.data.length) h
    simp only [String.data_append, List.length_append] at hlen
    rw [show ("-" : String).data.length = 1 from rfl] at hlen
    omega
  | i + 1, 0 =>
    exfalso
    rw [candName, candName] at h
    have hlen := congrArg (fun s => s.data.length) h
    simp only [String.data_append, List.length_append] at hlen
    rw [show ("-" : String).data.length = 1 from rfl] at hlen
    omega
  | i + 1, j + 1 =>
    rw [candName, candName] at h
    have hd := congrArg String.data h
    simp only [String.data_append] at hd
    have h2 := List.append_cancel_left hd
    have h3 : Nat.repr (i + 1) = Nat.repr (j + 1) := string_data_inj h2
    have h4 := reprNat_injective h3
    omega

theorem exists_free_cand (cat : List (String × String)) (base : String) :
    ∃ k, k ≤ cat.length ∧ dictFind cat (candName base k) = none := by
  by_contra hc
  push_neg at hc
  have hmem : ∀ k, k ≤ cat.length → candName base k ∈ cat.map Prod.fst := by
    intro k hk
    rw [← dictFind_isSome_iff_mem]
    exact Option.isSome_iff_ne_none.mpr (hc k hk)
  have hsub : (List.range (cat.length + 1)).map (candName base)
      ⊆ cat.map Prod.fst := by
    intro x hx
    rw [List.mem_map] at hx
    obtain ⟨k, hk, rfl⟩ := hx
    rw [List.mem_range] at hk
    exact hmem k (by omega)
  have hnd : ((List.range (cat.length + 1)).map (candName base)).Nodup :=
    (List.nodup_range _).map (candName_injective base)
  have hlen := (hnd.subperm hsub).length_le
  simp only [List.length_map, List.length_range] at hlen
  omega

theorem collisionLoop_free (base : String) (cat : List (String × String)) :
    ∀ (fuel k : Nat),
      (∃ j, k ≤ j ∧ j < k + fuel ∧ dictFind cat (candName base j) = none) →
      dictFind cat (collisionLoop base cat fuel k) = none := by
  intro fuel
  induction fuel with
  | zero =>
    intro k h
    obtain ⟨j, h1, h2, _⟩ := h
    omega
  | succ fuel ih =>
    intro k h
    rw [collisionLoop]
    by_cases hk : (dictFind cat (candName base k)).isSome
    · rw [if_pos hk]
      apply ih (k + 1)
      obtain ⟨j, h1, h2, h3⟩ := h
      refine ⟨j, ?_, by omega, h3⟩
      rcases Nat.eq_or_lt_of_le h1 with heq | hlt
      · exfalso
        rw [← heq] at h3
        rw [h3] at hk
        simp at hk
      · omega
    · rw [if_neg hk]
      cases he : dictFind cat (candName base k) with
      | none => rfl
      | some v =>
        rw [he] at hk
        simp at hk

theorem dictFind_collisionFreeName (base : String)
    (cat : List (String × String)) :
    dictFind cat (collisionFreeName base cat) = none := by
  rw [collisionFreeName]
  apply collisionLoop_free
  obtain ⟨k, hk, hfree⟩ := exists_free_cand cat base
  exact ⟨k, Nat.zero_le k, by omega, hfree⟩

theorem addColorToken_append (cat : List (String × String)) (base v : String) :
    addColorToken cat base v = cat ++ [(collisionFreeName base cat, v)] := by
  rw [addColorToken, dictInsert,
    if_neg (by rw [dictFind_collisionFreeName]; simp)]

theorem addColorTokens_cons (cat : List (String × String))
    (p : String × String) (rest : List (String × String)) :
    addColorTokens cat (p :: rest)
      = addColorTokens (addColorToken cat p.1 p.2) rest := rfl

theorem addColorTokens_nodup_len (batch : List (String × String)) :
    ∀ (cat : List (String × String)), (cat.map Prod.fst).Nodup →
      ((addColorTokens cat batch).map Prod.fst).Nodup ∧
      (addColorTokens cat batch).length = cat.length + batch.length := by
  induction batch with
  | nil =>
    intro cat hnd
    exact ⟨hnd, by simp [addColorTokens]⟩
  | cons p rest ih =>
    intro cat hnd
    rw [addColorTokens_cons]
    have hfresh : collisionFreeName p.1 cat ∉ cat.map Prod.fst := by
      rw [← dictFind_isSome_iff_mem, dictFind_collisionFreeName]
      simp
    have happ := addColorToken_append cat p.1 p.2
    have hnd' : ((addColorToken cat p.1 p.2).map Prod.fst).Nodup := by
      rw [happ, List.map_append]
      rw [List.nodup_append]
      refine ⟨hnd, by simp, ?_⟩
      intro x hx
      simp only [List.map_cons, List.map_nil, List.mem_singleton]
      intro hx2
      rw [hx2] at hx
      exact hfresh hx
    have hlen' : (addColorToken cat p.1 p.2).length = cat.length + 1 := by
      rw [happ, List.length_append, List.length_cons, List.length_nil]
    obtain ⟨ih1, ih2⟩ := ih (addColorToken cat p.1 p.2) hnd'
    refine ⟨ih1, ?_⟩
    rw [ih2, hlen', List.length_cons]
    omega

theorem collisionFreeName_of_free (base : String)
    (cat : List (String × String)) (h : dictFind cat base = none) :
    collisionFreeName base cat = base := by
  rw [collisionFreeName, collisionLoop,
    show candName base 0 = base from rfl, h]
  simp

theorem addColorTokens_preserve :
    ∀ (rest : List (String × String)) (m : List (String × String))
      (k v : String), dictFind m k = some v →
      dictFind (addColorTokens m rest) k = some v := by
  intro rest
  induction rest with
  | nil => intro m k v h; exact h
  | cons p rest2 ih =>
    intro m k v h
    rw [addColorTokens_cons]
    apply ih
    rw [addColorToken_append]
    exact dictFind_append_left _ h

theorem dictFind_addColorTokens_first (cat : List (String × String))
    (b v : String) (rest : List (String × String))
    (hb : dictFind cat b = none) :
    dictFind (addColorTokens cat ((b, v) :: rest)) b = some v := by
  rw [addColorTokens_cons]
  have h2 : addColorToken cat b v = cat ++ [(b, v)] := by
    rw [addColorToken_append, collisionFreeName_of_free b cat hb]
  rw [h2]
  apply addColorTokens_preserve
  rw [dictFind_append_right _ hb, dictFind, if_pos rfl]

/-- C7.  The collision policy, modelled from the spec (the shipped
`scripts/token-extractor.py` fails to parse and can never execute, so the
claimed behaviour is exhibited by no run of the program — the indentation
slip, not the policy, is the defect), produces distinct identifiers:
starting from any category whose identifiers are distinct, inserting a
batch of N tokens through the collision loop yields a category whose
identifiers are still pairwise distinct, whose size grew by exactly N (no
token was lost by overwriting), and the first token of the batch — whose
generated base name is not yet taken — keeps the un-suffixed name `b` and
is stored under it. -/
theorem spec_c7_collision_free_naming (cat : List (String × String))
    (b v : String) (rest : List (String × String))
    (hnd : (cat.map Prod.fst).Nodup) (hb : dictFind cat b = none) :
    ((addColorTokens cat ((b, v) :: rest)).map Prod.fst).Nodup ∧
    (addColorTokens cat ((b, v) :: rest)).length
        = cat.length + ((b, v) :: rest).length ∧
    collisionFreeName b cat = b ∧
    dictFind (addColorTokens cat ((b, v) :: rest)) b = some v :=
  ⟨(addColorTokens_nodup_len ((b, v) :: rest) cat hnd).1,
   (addColorTokens_nodup_len ((b, v) :: rest) cat hnd).2,
   collisionFreeName_of_free b cat hb,
   dictFind_addColorTokens_first cat b v rest hb⟩

/-- C7 witness: two colliding `color-red` tokens get the names `color-red`
and `color-red-1`. -/
theorem spec_c7_witness :
    (([] : List (String × String)).map Prod.fst).Nodup ∧
    dictFind ([] : List (String × String)) "color-red" = none ∧
    ((addColorTokens [] [("color-red", "#F00"), ("color-red", "#E00")]).map
        Prod.fst).Nodup ∧
    (addColorTokens [] [("color-red", "#F00"), ("color-red", "#E00")]).length
        = 0 + 2 ∧
    collisionFreeName "color-red" [] = "color-red" ∧
    dictFind (addColorTokens [] [("color-red", "#F00"), ("color-red", "#E00")])
        "color-red" = some "#F00" := by
  have h := spec_c7_collision_free_naming [] "color-red" "#F00"
    [("color-red", "#E00")] (by decide) (by rfl)
  exact ⟨by decide, by rfl, h.1, h.2.1, h.2.2.1, h.2.2.2⟩
